import Mathlib

/-!
# LatticeMatch angular-interval engine: a verification development

This file embeds the core of the LatticeMatch repository — the circular
angular-interval arithmetic engine (`angleclass`, `anglerange`, `angleset`)
— as Lean definitions, translated branch-for-branch from
`src/anglerange.cpp`, `src/unnamed/part_003` (`angleclass.cpp`) and the
`angleset` implementation, and proves properties of those definitions.

Modelling conventions:

* The C++ `angleclass` stores a `double` normalized into `[0, 2π)` by
  `shiftinrange(x) = x - 2π·floor(x/(2π))`.  Floating-point doubles are
  modelled as exact scalars.  Two models are given:
  - `shiftinrangeReal` over `ℝ` with the literal `2π` period, used for the
    numeric normalization theorems (the exact source formula);
  - for the arc/set engine a computable model over `ℚ` measured in degrees
    (full turn `= 360`), an order-isomorphic rescaling of the source's
    radians under `x ↦ x·180/π`: every comparison, `fmax`/`fmin`, and the
    wrap-around subtraction of the source is preserved by this rescaling,
    and all definitions stay executable so concrete runs can be checked by
    `decide`.
* The C++ `enum sorttype {SRT_LOWER, SRT_UPPER, SRT_SIZE}` is modelled by
  its underlying integer values `0,1,2` (a C++ enum variable can hold
  other integer values, which is what the `default:` branch of the
  comparison operators catches), so the "unrecognized sort mode" state is
  representable.
* The comparison operators `<`, `>`, `<=`, `>=` of `anglerange` can throw
  `std::out_of_range`; they are modelled as `Except String Bool`, the
  `.error` case being the thrown exception.
* Wherever the C++ implicitly converts a `double` to `angleclass`
  (normalizing it) — the `fmax`/`fmin` results fed to `setlower`/`setupper`
  and the `anglerange(double, double)` construction path — the model
  applies `shiftinrange` at the same spot.
-/

/-! ## The real-valued normalization (`angleclass`, exact source formula) -/

/-- `angleclass::shiftinrange` over the reals, exactly as in the source:
`number - 2.0*M_PI*floor(number/(2.0*M_PI))`. -/
noncomputable def shiftinrangeReal (x : ℝ) : ℝ :=
  x - 2 * Real.pi * ⌊x / (2 * Real.pi)⌋

/-- `angleclass::operator+` over the reals: add raw scalars, re-normalize. -/
noncomputable def angleAddReal (a b : ℝ) : ℝ := shiftinrangeReal (a + b)

/-- `angleclass::operator-` over the reals. -/
noncomputable def angleSubReal (a b : ℝ) : ℝ := shiftinrangeReal (a - b)

/-- `angleclass::operator*` over the reals. -/
noncomputable def angleMulReal (a b : ℝ) : ℝ := shiftinrangeReal (a * b)

/-- `angleclass::operator/` over the reals. -/
noncomputable def angleDivReal (a b : ℝ) : ℝ := shiftinrangeReal (a / b)

/-! ## The computable degree-valued scalar model -/

/-- The full turn of the computable model, in degrees. -/
def turn : ℚ := 360

/-- `angleclass::shiftinrange` in the degree model:
`number - turn*floor(number/turn)`. -/
def shiftinrange (x : ℚ) : ℚ := x - turn * ⌊x / turn⌋

/-- `angleclass::operator-` in the degree model (wrap-around subtraction,
used by the `SRT_SIZE` comparison of arc spans). -/
def angleSub (a b : ℚ) : ℚ := shiftinrange (a - b)

/-! ## The arc type (`anglerange`) -/

/-- Underlying integer value of `anglerange::SRT_LOWER`. -/
def SRT_LOWER : Int := 0

/-- Underlying integer value of `anglerange::SRT_UPPER`. -/
def SRT_UPPER : Int := 1

/-- Underlying integer value of `anglerange::SRT_SIZE`. -/
def SRT_SIZE : Int := 2

/-- The `anglerange` record: two stored borders (angleclass values, in the
degree model plain rationals), the two "is set" flags, the full-circle flag
and the sort mode field. -/
structure anglerange where
  lowerborder : ℚ
  upperborder : ℚ
  upperset : Bool
  lowerset : Bool
  fullcircle : Bool
  sortby : Int
deriving DecidableEq

namespace anglerange

/-- The default constructor `anglerange()`: borders 0, both unset,
not a circle, sort mode `SRT_SIZE`. -/
def mk0 : anglerange :=
  { lowerborder := 0, upperborder := 0, upperset := false, lowerset := false,
    fullcircle := false, sortby := SRT_SIZE }

/-- The constructor `anglerange(lower, upper)` from two angleclass values
(already normalized): both flags set, not a circle, sort mode `SRT_SIZE`. -/
def mk2 (lower upper : ℚ) : anglerange :=
  { lowerborder := lower, upperborder := upper, upperset := true,
    lowerset := true, fullcircle := false, sortby := SRT_SIZE }

/-- The construction path `anglerange(double, double)`: each raw scalar is
first normalized by the `angleclass` conversion. -/
def ofRaw (lower upper : ℚ) : anglerange := mk2 (shiftinrange lower) (shiftinrange upper)

/-- `anglerange::isempty`: true unless both borders are set. -/
def isempty (r : anglerange) : Bool := !r.upperset || !r.lowerset

/-- `anglerange::setlower`. -/
def setlower (r : anglerange) (x : ℚ) : anglerange :=
  { r with lowerborder := x, lowerset := true }

/-- `anglerange::setupper`. -/
def setupper (r : anglerange) (x : ℚ) : anglerange :=
  { r with upperborder := x, upperset := true }

/-- `anglerange::setempty`: clears the flags, keeps the stale borders. -/
def setempty (r : anglerange) : anglerange :=
  { r with upperset := false, lowerset := false, fullcircle := false }

/-- `anglerange::setsorttype`. -/
def setsorttype (r : anglerange) (s : Int) : anglerange := { r with sortby := s }

/-- `anglerange::iscircle`: the full-circle flag, masked by non-emptiness. -/
def iscircle (r : anglerange) : Bool := r.fullcircle && !r.isempty

/-- `anglerange::setcircle`: setting true also pins both borders to the zero
angle and marks both as set. -/
def setcircle (r : anglerange) (value : Bool) : anglerange :=
  if value then
    { r with lowerset := true, upperset := true, lowerborder := 0, upperborder := 0,
             fullcircle := value }
  else { r with fullcircle := value }

/-- `anglerange::isinside`: false if empty; true if full circle; otherwise
wrap-aware inclusive containment. -/
def isinside (r : anglerange) (val : ℚ) : Bool :=
  if r.isempty = true then false
  else if r.fullcircle = true then true
  else if r.lowerborder > r.upperborder then
    decide (val ≥ r.lowerborder) || decide (val ≤ r.upperborder)
  else
    decide (val ≥ r.lowerborder) && decide (val ≤ r.upperborder)

/-- `anglerange::overlap`: pairwise intersection, translated
branch-for-branch from the source (the four-way case split on which operand
wraps the zero line). -/
def overlap (self other : anglerange) : anglerange :=
  let retval := mk0.setsorttype self.sortby
  if self.isempty = false ∧ other.isempty = false then
    if self.fullcircle = true then
      other.setsorttype self.sortby
    else if other.fullcircle = true then
      self
    else if self.lowerborder > self.upperborder then
      if other.lowerborder > other.upperborder then
        (retval.setlower (shiftinrange (max self.lowerborder other.lowerborder))).setupper
          (shiftinrange (min self.upperborder other.upperborder))
      else
        if other.upperborder ≤ self.upperborder ∨ other.lowerborder ≥ self.lowerborder then
          (retval.setlower other.lowerborder).setupper other.upperborder
        else if other.upperborder ≥ self.lowerborder then
          (retval.setlower self.lowerborder).setupper other.upperborder
        else if other.lowerborder ≤ self.upperborder then
          (retval.setlower other.lowerborder).setupper self.upperborder
        else retval
    else
      if other.lowerborder > other.upperborder then
        if self.upperborder ≤ other.upperborder ∨ self.lowerborder ≥ other.lowerborder then
          (retval.setlower self.lowerborder).setupper self.upperborder
        else if self.lowerborder ≤ other.upperborder then
          (retval.setlower self.lowerborder).setupper other.upperborder
        else if self.upperborder ≥ other.lowerborder then
          (retval.setlower other.lowerborder).setupper self.upperborder
        else retval
      else
        let curmax := min other.upperborder self.upperborder
        let curmin := max other.lowerborder self.lowerborder
        if curmax ≥ curmin then
          (retval.setlower (shiftinrange curmin)).setupper (shiftinrange curmax)
        else retval
  else retval

/-- `anglerange::combine`: pairwise union, translated branch-for-branch.
Note the faithful control flow: the `if(fullcircle)` that copies `*this`
into `retval` is NOT part of the following `else if` chain, which is headed
by `if(other.fullcircle)`. -/
def combine (self other : anglerange) : anglerange :=
  let retval0 := mk0.setsorttype self.sortby
  if self.isempty = false ∧ other.isempty = false then
    let retval := if self.fullcircle = true then self else retval0
    if other.fullcircle = true then
      other.setsorttype self.sortby
    else if self.lowerborder > self.upperborder then
      if other.lowerborder > other.upperborder then
        if self.lowerborder ≤ other.upperborder ∨ other.lowerborder ≤ self.upperborder then
          retval.setcircle true
        else
          (retval.setlower (shiftinrange (min self.lowerborder other.lowerborder))).setupper
            (shiftinrange (max self.upperborder other.upperborder))
      else
        if other.upperborder ≤ self.upperborder ∨ other.lowerborder ≥ self.lowerborder then
          (retval.setlower self.lowerborder).setupper self.upperborder
        else if other.lowerborder ≤ self.upperborder ∧ other.upperborder ≥ self.lowerborder then
          retval.setcircle true
        else if other.upperborder ≥ self.lowerborder then
          (retval.setlower other.lowerborder).setupper self.upperborder
        else if other.lowerborder ≤ self.upperborder then
          (retval.setlower self.lowerborder).setupper other.upperborder
        else retval
    else
      if other.lowerborder > other.upperborder then
        if self.upperborder ≤ other.upperborder ∨ self.lowerborder ≥ other.lowerborder then
          (retval.setlower other.lowerborder).setupper other.upperborder
        else if self.lowerborder ≤ other.upperborder ∧ self.upperborder ≥ other.lowerborder then
          retval.setcircle true
        else if self.lowerborder ≤ other.upperborder then
          (retval.setlower other.lowerborder).setupper self.upperborder
        else if self.upperborder ≥ other.lowerborder then
          (retval.setlower self.lowerborder).setupper other.upperborder
        else retval
      else
        let curmax := min other.upperborder self.upperborder
        let curmin := max other.lowerborder self.lowerborder
        if curmax ≥ curmin then
          (retval.setlower (shiftinrange (min other.lowerborder self.lowerborder))).setupper
            (shiftinrange (max other.upperborder self.upperborder))
        else retval
  else retval0

/-- The message of the `std::out_of_range` thrown on an invalid sort mode. -/
def invalidSortMsg : String := "Invalid sort field set for anglerange! Go, debug.\n"

/-- `anglerange::operator<`: false when either operand is empty; otherwise
dispatches on the receiver's sort mode; an unrecognized mode throws. -/
def lt (self other : anglerange) : Except String Bool :=
  if self.isempty = true ∨ other.isempty = true then .ok false
  else if self.sortby = SRT_LOWER then .ok (decide (self.lowerborder < other.lowerborder))
  else if self.sortby = SRT_UPPER then .ok (decide (self.upperborder < other.upperborder))
  else if self.sortby = SRT_SIZE then
    if other.fullcircle = true then .ok (!self.fullcircle)
    else if self.fullcircle = true then .ok false
    else .ok (decide (angleSub self.upperborder self.lowerborder <
                      angleSub other.upperborder other.lowerborder))
  else .error invalidSortMsg

/-- `anglerange::operator>`. -/
def gt (self other : anglerange) : Except String Bool :=
  if self.isempty = true ∨ other.isempty = true then .ok false
  else if self.sortby = SRT_LOWER then .ok (decide (self.lowerborder > other.lowerborder))
  else if self.sortby = SRT_UPPER then .ok (decide (self.upperborder > other.upperborder))
  else if self.sortby = SRT_SIZE then
    if self.fullcircle = true then .ok (!other.fullcircle)
    else if other.fullcircle = true then .ok false
    else .ok (decide (angleSub self.upperborder self.lowerborder >
                      angleSub other.upperborder other.lowerborder))
  else .error invalidSortMsg

/-- `anglerange::operator<=`: emptiness short-circuit first, then the
negation of `operator>` (whose exception, if any, propagates). -/
def le (self other : anglerange) : Except String Bool :=
  if self.isempty = true ∨ other.isempty = true then .ok false
  else match self.gt other with
    | .ok b => .ok (!b)
    | .error e => .error e

/-- `anglerange::operator>=`. -/
def ge (self other : anglerange) : Except String Bool :=
  if self.isempty = true ∨ other.isempty = true then .ok false
  else match self.lt other with
    | .ok b => .ok (!b)
    | .error e => .error e

/-- `anglerange::operator==`: two non-empty arcs compare field by field on
the borders; otherwise equal iff both empty. -/
def beq (self other : anglerange) : Bool :=
  if self.isempty = false ∧ other.isempty = false then
    decide (self.lowerborder = other.lowerborder) &&
      decide (self.upperborder = other.upperborder)
  else decide (self.isempty = true ∧ other.isempty = true)

end anglerange

/-! ## The disjoint arc set (`angleset`) -/

/-- The `angleset` record: the storage vector and the consistency flag. -/
structure angleset where
  storage : List anglerange
  consistent : Bool
deriving DecidableEq

namespace angleset

/-- `angleset()`. -/
def mkEmpty : angleset := { storage := [], consistent := true }

/-- The inner loop of `angleset::combine`: `compare` runs from the back of
the tail down to just above `curpos`; a successful `curpos->combine(*compare)`
replaces the current arc and erases the absorbed one.  The list holds the
elements above `curpos` in storage order; the rightmost is processed first. -/
def innerScan (cur : anglerange) : List anglerange → anglerange × List anglerange
  | [] => (cur, [])
  | c :: rest =>
      let r := innerScan cur rest
      let tmp := r.1.combine c
      if tmp.isempty = true then (r.1, c :: r.2) else (tmp, r.2)

/-- The outer loop of `angleset::combine`: `curpos` runs from the second
last element down to the first; the element at `curpos` is inner-scanned
against everything still stored above it. -/
def outerScan : List anglerange → List anglerange
  | [] => []
  | x :: xs =>
      let t := outerScan xs
      let r := innerScan x t
      r.1 :: r.2

/-- `angleset::combine` (the merge pass): only does something when at least
two elements are stored; sets the consistency flag. -/
def combine (s : angleset) : angleset :=
  { storage := if 2 ≤ s.storage.length then outerScan s.storage else s.storage,
    consistent := true }

/-- `angleset::isempty`. -/
def isempty (s : angleset) : Bool := s.storage.isEmpty

/-- `angleset::add(const anglerange&)`: a no-op for an empty arc; otherwise
the arc is appended with sort mode `SRT_LOWER` and the merge pass runs. -/
def add (s : angleset) (value : anglerange) : angleset :=
  if value.isempty = true then s
  else combine { s with storage := s.storage ++ [value.setsorttype SRT_LOWER] }

/-- `angleset::add(const angleset&)`: bulk-append the other set's storage,
then run the merge pass. -/
def addSet (s : angleset) (value : angleset) : angleset :=
  combine { s with storage := s.storage ++ value.storage }

/-- `angleset::add(const double&, const double&)`: push
`anglerange(lower, upper)` (normalizing each raw bound through the
`angleclass` conversion), set its sort mode to `SRT_LOWER`, merge. -/
def addRaw (s : angleset) (lower upper : ℚ) : angleset :=
  combine { s with storage := s.storage ++ [(anglerange.ofRaw lower upper).setsorttype SRT_LOWER] }

end angleset

/-! ## Basic facts about the scalar models -/

theorem turn_pos : (0 : ℚ) < turn := by norm_num [turn]

/-- The degree-model normalization lands in `[0, turn)`. -/
theorem shiftinrange_mem (x : ℚ) : 0 ≤ shiftinrange x ∧ shiftinrange x < turn := by
  have ht : (turn : ℚ) ≠ 0 := ne_of_gt turn_pos
  have hrw : shiftinrange x = turn * Int.fract (x / turn) := by
    unfold shiftinrange Int.fract
    field_simp
  constructor
  · rw [hrw]
    exact mul_nonneg (le_of_lt turn_pos) (Int.fract_nonneg _)
  · rw [hrw]
    calc turn * Int.fract (x / turn) < turn * 1 :=
          mul_lt_mul_of_pos_left (Int.fract_lt_one _) turn_pos
      _ = turn := mul_one turn

/-- Normalization is the identity on values already in `[0, turn)`. -/
theorem shiftinrange_eq_self {x : ℚ} (h0 : 0 ≤ x) (h1 : x < turn) : shiftinrange x = x := by
  unfold shiftinrange
  have : ⌊x / turn⌋ = 0 := by
    rw [Int.floor_eq_zero_iff]
    constructor
    · exact div_nonneg h0 (le_of_lt turn_pos)
    · rw [div_lt_one turn_pos]
      exact h1
  rw [this]
  push_cast
  ring

/-! ## The comparison operators (claims C7, C8, C10) -/

/-- The recognized values of the sort mode field. -/
def validSort (s : Int) : Prop := s = SRT_LOWER ∨ s = SRT_UPPER ∨ s = SRT_SIZE

instance (s : Int) : Decidable (validSort s) := by
  unfold validSort
  infer_instance

/-- C7: any relational comparison with an empty operand returns false; for
non-empty operands under a valid (receiver) sort mode, `<=` is the negation
of `>` and `>=` the negation of `<`. -/
theorem claim_C7_relational_operators (a b : anglerange) :
    ((a.isempty = true ∨ b.isempty = true) →
      a.lt b = .ok false ∧ a.gt b = .ok false ∧ a.le b = .ok false ∧ a.ge b = .ok false)
    ∧ (a.isempty = false → b.isempty = false → validSort a.sortby →
      a.le b = Except.map Bool.not (a.gt b) ∧ a.ge b = Except.map Bool.not (a.lt b)) := by
  constructor
  · intro h
    refine ⟨?_, ?_, ?_, ?_⟩ <;> simp only [anglerange.lt, anglerange.gt, anglerange.le,
      anglerange.ge, if_pos h]
  · intro h1 h2 hv
    have hne : ¬(a.isempty = true ∨ b.isempty = true) := by simp [h1, h2]
    constructor
    · simp only [anglerange.le, anglerange.gt, if_neg hne]
      rcases hv with h | h | h <;> simp only [h] <;> norm_num [SRT_LOWER, SRT_UPPER, SRT_SIZE] <;>
        first
          | (split_ifs <;> simp [Except.map])
          | simp [Except.map]
    · simp only [anglerange.ge, anglerange.lt, if_neg hne]
      rcases hv with h | h | h <;> simp only [h] <;> norm_num [SRT_LOWER, SRT_UPPER, SRT_SIZE] <;>
        first
          | (split_ifs <;> simp [Except.map])
          | simp [Except.map]

/-- Witness for C7 at concrete arcs. -/
theorem claim_C7_relational_operators_witness :
    (anglerange.mk0.lt (anglerange.mk2 0 1) = .ok false ∧
      anglerange.mk0.gt (anglerange.mk2 0 1) = .ok false ∧
      anglerange.mk0.le (anglerange.mk2 0 1) = .ok false ∧
      anglerange.mk0.ge (anglerange.mk2 0 1) = .ok false) ∧
    ((anglerange.mk2 0 1).le (anglerange.mk2 0 2) =
        Except.map Bool.not ((anglerange.mk2 0 1).gt (anglerange.mk2 0 2)) ∧
      (anglerange.mk2 0 1).ge (anglerange.mk2 0 2) =
        Except.map Bool.not ((anglerange.mk2 0 1).lt (anglerange.mk2 0 2))) :=
  ⟨(claim_C7_relational_operators anglerange.mk0 (anglerange.mk2 0 1)).1 (Or.inl rfl),
   (claim_C7_relational_operators (anglerange.mk2 0 1) (anglerange.mk2 0 2)).2 rfl rfl
     (Or.inr (Or.inr rfl))⟩

/-- C8: comparing two non-empty arcs whose sort mode holds an unrecognized
value signals the fatal `std::out_of_range` (modelled as `.error`) instead
of returning a default ordering. -/
theorem claim_C8_invalid_sort_mode_throws (a b : anglerange)
    (h1 : a.isempty = false) (h2 : b.isempty = false)
    (h3 : ¬ validSort a.sortby) (h4 : ¬ validSort b.sortby) :
    a.lt b = .error anglerange.invalidSortMsg ∧
    a.gt b = .error anglerange.invalidSortMsg ∧
    a.le b = .error anglerange.invalidSortMsg ∧
    a.ge b = .error anglerange.invalidSortMsg := by
  have hne : ¬(a.isempty = true ∨ b.isempty = true) := by simp [h1, h2]
  unfold validSort at h3
  push_neg at h3
  obtain ⟨e0, e1, e2⟩ := h3
  have hlt : a.lt b = .error anglerange.invalidSortMsg := by
    simp only [anglerange.lt, if_neg hne, if_neg e0, if_neg e1, if_neg e2]
  have hgt : a.gt b = .error anglerange.invalidSortMsg := by
    simp only [anglerange.gt, if_neg hne, if_neg e0, if_neg e1, if_neg e2]
  refine ⟨hlt, hgt, ?_, ?_⟩
  · simp only [anglerange.le, if_neg hne, hgt]
  · simp only [anglerange.ge, if_neg hne, hlt]

/-- Witness for C8: two non-empty arcs whose sort field holds `5`. -/
theorem claim_C8_invalid_sort_mode_throws_witness :
    ((anglerange.mk2 0 1).setsorttype 5).lt ((anglerange.mk2 0 2).setsorttype 5) =
      .error anglerange.invalidSortMsg ∧
    ((anglerange.mk2 0 1).setsorttype 5).gt ((anglerange.mk2 0 2).setsorttype 5) =
      .error anglerange.invalidSortMsg ∧
    ((anglerange.mk2 0 1).setsorttype 5).le ((anglerange.mk2 0 2).setsorttype 5) =
      .error anglerange.invalidSortMsg ∧
    ((anglerange.mk2 0 1).setsorttype 5).ge ((anglerange.mk2 0 2).setsorttype 5) =
      .error anglerange.invalidSortMsg :=
  claim_C8_invalid_sort_mode_throws _ _ rfl rfl (by decide) (by decide)

/-- C10: with an empty operand every comparison returns false before the
sort-mode dispatch, so even an unrecognized sort mode never raises the
configuration error. -/
theorem claim_C10_empty_precedes_sort_dispatch (a b : anglerange)
    (hs : ¬ validSort a.sortby) (h : a.isempty = true ∨ b.isempty = true) :
    a.lt b = .ok false ∧ a.gt b = .ok false ∧ a.le b = .ok false ∧ a.ge b = .ok false := by
  refine ⟨?_, ?_, ?_, ?_⟩ <;> simp only [anglerange.lt, anglerange.gt, anglerange.le,
    anglerange.ge, if_pos h]

/-- Witness for C10: one empty operand, receiver sort mode `7`. -/
theorem claim_C10_empty_precedes_sort_dispatch_witness :
    (anglerange.mk0.setsorttype 7).lt (anglerange.mk2 0 1) = .ok false ∧
    (anglerange.mk0.setsorttype 7).gt (anglerange.mk2 0 1) = .ok false ∧
    (anglerange.mk0.setsorttype 7).le (anglerange.mk2 0 1) = .ok false ∧
    (anglerange.mk0.setsorttype 7).ge (anglerange.mk2 0 1) = .ok false :=
  claim_C10_empty_precedes_sort_dispatch _ _ (by decide) (Or.inl rfl)

/-! ## Claim C9: normalization of the angle value (real model, source formula) -/

theorem two_pi_pos : (0 : ℝ) < 2 * Real.pi := by positivity

/-- The real normalization equals `2π` times the fractional part of `x/(2π)`. -/
theorem shiftinrangeReal_eq_fract (x : ℝ) :
    shiftinrangeReal x = 2 * Real.pi * Int.fract (x / (2 * Real.pi)) := by
  unfold shiftinrangeReal Int.fract
  have hne : (2 * Real.pi : ℝ) ≠ 0 := ne_of_gt two_pi_pos
  field_simp

/-- The real normalization lands in `[0, 2π)`. -/
theorem shiftinrangeReal_mem (x : ℝ) :
    0 ≤ shiftinrangeReal x ∧ shiftinrangeReal x < 2 * Real.pi := by
  rw [shiftinrangeReal_eq_fract]
  constructor
  · exact mul_nonneg (le_of_lt two_pi_pos) (Int.fract_nonneg _)
  · calc 2 * Real.pi * Int.fract (x / (2 * Real.pi)) < 2 * Real.pi * 1 :=
        mul_lt_mul_of_pos_left (Int.fract_lt_one _) two_pi_pos
      _ = 2 * Real.pi := mul_one _

/-- C9: for every real x the constructed angle stores
`x - 2π·floor(x/(2π))`, a value in `[0, 2π)`; construction from `x` and from
`x + 2π·k` stores the same scalar; and each arithmetic result (`+`, `-`,
`*`, `/`) is re-normalized into `[0, 2π)`. -/
theorem claim_C9_angle_normalization (x y : ℝ) (k : ℤ) :
    shiftinrangeReal x = x - 2 * Real.pi * ⌊x / (2 * Real.pi)⌋ ∧
    (0 ≤ shiftinrangeReal x ∧ shiftinrangeReal x < 2 * Real.pi) ∧
    shiftinrangeReal (x + 2 * Real.pi * k) = shiftinrangeReal x ∧
    (0 ≤ angleAddReal x y ∧ angleAddReal x y < 2 * Real.pi) ∧
    (0 ≤ angleSubReal x y ∧ angleSubReal x y < 2 * Real.pi) ∧
    (0 ≤ angleMulReal x y ∧ angleMulReal x y < 2 * Real.pi) ∧
    (0 ≤ angleDivReal x y ∧ angleDivReal x y < 2 * Real.pi) := by
  refine ⟨rfl, shiftinrangeReal_mem x, ?_, shiftinrangeReal_mem _, shiftinrangeReal_mem _,
    shiftinrangeReal_mem _, shiftinrangeReal_mem _⟩
  have hne : (2 * Real.pi : ℝ) ≠ 0 := ne_of_gt two_pi_pos
  have harg : (x + 2 * Real.pi * k) / (2 * Real.pi) = x / (2 * Real.pi) + k := by
    field_simp
    ring
  rw [shiftinrangeReal_eq_fract, shiftinrangeReal_eq_fract, harg, Int.fract_add_int]

/-! ## Claim C5: the concrete insertion/cascade-merge scenario -/

/-- C5: inserting the arc `[0°,10°]` then `[20°,30°]` into an empty set
leaves two stored arcs; then inserting the touching arc `[10°,20°]` cascades
into the single arc `[0°,30°]`. -/
theorem claim_C5_cascade_merge :
    ((angleset.mkEmpty.add (anglerange.mk2 0 10)).add (anglerange.mk2 20 30)).storage.length = 2 ∧
    (((angleset.mkEmpty.add (anglerange.mk2 0 10)).add (anglerange.mk2 20 30)).add
        (anglerange.mk2 10 20)).storage.length = 1 ∧
    (((angleset.mkEmpty.add (anglerange.mk2 0 10)).add (anglerange.mk2 20 30)).add
        (anglerange.mk2 10 20)).storage.map
      (fun r => (r.lowerborder, r.upperborder)) = [(0, 30)] :=
  ⟨by with_unfolding_all rfl, by with_unfolding_all rfl, by with_unfolding_all rfl⟩

/-! ## Boolean characterizations of the arc queries -/

theorem isempty_eq_false_iff (r : anglerange) :
    r.isempty = false ↔ (r.upperset = true ∧ r.lowerset = true) := by
  simp [anglerange.isempty]

theorem iscircle_eq_true_iff (r : anglerange) :
    r.iscircle = true ↔ (r.fullcircle = true ∧ r.isempty = false) := by
  simp [anglerange.iscircle, anglerange.isempty]

/-! ## Claim C4 (corrected): full-circle as intersection identity / union absorber -/

/-- Counterexample to C4 as stated: the program can hold an arc `X` that is
flagged full-circle but whose stored borders are not the pinned zero pair
(e.g. built by `setcircle(true)` followed by `setlower`/`setupper`, and
`combine` itself produces such arcs).  For such a non-empty `X` and a
pinned full-circle arc `full`, `X.overlap(full)` returns `full`, whose
borders differ from `X`'s, so `X.overlap(full) == X` is false. -/
theorem claim_C4_counterexample :
    ((((anglerange.mk0.setcircle true).setlower 1).setupper 1).isempty = false ∧
      (anglerange.mk0.setcircle true).iscircle = true) ∧
    ((((anglerange.mk0.setcircle true).setlower 1).setupper 1).overlap
        (anglerange.mk0.setcircle true)).beq
      (((anglerange.mk0.setcircle true).setlower 1).setupper 1) = false :=
  ⟨⟨by with_unfolding_all rfl, by with_unfolding_all rfl⟩, by with_unfolding_all rfl⟩

/-- C4, amended: for every non-empty arc `X` and full-circle arc `full`,
`full.overlap(X) == X` holds; `X.overlap(full) == X` holds provided `X`
itself is not flagged full-circle (when it is, the result is `full`, equal
to `X` only if their stored borders coincide); and both `full.combine(X)`
and `X.combine(full)` report `isCircle() == true`. -/
theorem claim_C4_full_circle_identity (X full : anglerange)
    (hX : X.isempty = false) (hf : full.iscircle = true) :
    (full.overlap X).beq X = true ∧
    (X.fullcircle = false → (X.overlap full).beq X = true) ∧
    (full.combine X).iscircle = true ∧
    (X.combine full).iscircle = true := by
  obtain ⟨hf1, hf2⟩ := (iscircle_eq_true_iff full).mp hf
  obtain ⟨hXu, hXl⟩ := (isempty_eq_false_iff X).mp hX
  obtain ⟨hfu, hfl⟩ := (isempty_eq_false_iff full).mp hf2
  refine ⟨?_, ?_, ?_, ?_⟩
  · -- full.overlap X = X with full's sort mode; == ignores the sort mode
    simp only [anglerange.overlap, hf2, hX, hf1, if_true, and_self, if_pos]
    simp [anglerange.beq, anglerange.setsorttype, anglerange.isempty, hXu, hXl]
  · -- X not flagged full-circle: X.overlap full = X itself
    intro hXc
    simp only [anglerange.overlap, hf2, hX, hXc, hf1, and_self, if_pos]
    simp only [Bool.false_eq_true, if_false, if_true]
    simp [anglerange.beq, anglerange.isempty, hXu, hXl]
  · -- full.combine X: the full-circle flag survives every branch
    unfold anglerange.combine
    simp only [hf2, hX, hf1, and_self, if_pos, if_true]
    split_ifs <;>
      simp_all [anglerange.iscircle, anglerange.isempty, anglerange.setcircle,
        anglerange.setlower, anglerange.setupper, anglerange.setsorttype]
  · -- X.combine full: the head of the else-if chain returns full
    unfold anglerange.combine
    simp only [hf2, hX, hf1, and_self, if_pos, if_true]
    simp [anglerange.iscircle, anglerange.isempty, anglerange.setsorttype, hf1, hfu, hfl]

/-- Witness for the amended C4 at a concrete non-circle arc and the pinned
full circle. -/
theorem claim_C4_full_circle_identity_witness :
    ((anglerange.mk0.setcircle true).overlap (anglerange.mk2 5 10)).beq
        (anglerange.mk2 5 10) = true ∧
    ((anglerange.mk2 5 10).fullcircle = false →
      ((anglerange.mk2 5 10).overlap (anglerange.mk0.setcircle true)).beq
        (anglerange.mk2 5 10) = true) ∧
    ((anglerange.mk0.setcircle true).combine (anglerange.mk2 5 10)).iscircle = true ∧
    ((anglerange.mk2 5 10).combine (anglerange.mk0.setcircle true)).iscircle = true :=
  claim_C4_full_circle_identity (anglerange.mk2 5 10) (anglerange.mk0.setcircle true)
    (by with_unfolding_all rfl) (by with_unfolding_all rfl)

/-! ## Membership characterization and set semantics -/

/-- Characterization of `isinside` as a proposition. -/
theorem isinside_eq_true_iff (r : anglerange) (v : ℚ) :
    r.isinside v = true ↔
      (r.isempty = false ∧
        (r.fullcircle = true ∨
          (r.fullcircle = false ∧ r.upperborder < r.lowerborder ∧
            (r.lowerborder ≤ v ∨ v ≤ r.upperborder)) ∨
          (r.fullcircle = false ∧ r.lowerborder ≤ r.upperborder ∧
            r.lowerborder ≤ v ∧ v ≤ r.upperborder))) := by
  unfold anglerange.isinside
  split_ifs with h1 h2 h3
  · simp [h1]
  · simp [h1, h2]
  · simp only [Bool.or_eq_true, decide_eq_true_eq]
    simp only [Bool.not_eq_true] at h1 h2
    constructor
    · intro h
      exact ⟨h1, Or.inr (Or.inl ⟨h2, h3, by tauto⟩)⟩
    · rintro ⟨-, h | ⟨-, -, h⟩ | ⟨-, hle, -⟩⟩
      · simp [h] at h2
      · tauto
      · exact absurd hle (not_le.mpr h3)
  · simp only [Bool.and_eq_true, decide_eq_true_eq]
    simp only [Bool.not_eq_true] at h1 h2
    push_neg at h3
    constructor
    · intro h
      exact ⟨h1, Or.inr (Or.inr ⟨h2, h3, h.1, h.2⟩)⟩
    · rintro ⟨-, h | ⟨-, hlt, -⟩ | ⟨-, -, h⟩⟩
      · simp [h] at h2
      · exact absurd hlt (not_lt.mpr h3)
      · exact h

/-- Membership in a wrapping non-circle arc. -/
theorem mem_wrap {r : anglerange} (he : r.isempty = false) (hc : r.fullcircle = false)
    (h : r.upperborder < r.lowerborder) (v : ℚ) :
    r.isinside v = true ↔ (r.lowerborder ≤ v ∨ v ≤ r.upperborder) := by
  rw [isinside_eq_true_iff]
  constructor
  · rintro ⟨-, hcirc | ⟨-, -, hm⟩ | ⟨-, hle, -⟩⟩
    · simp [hcirc] at hc
    · exact hm
    · exact absurd hle (not_le.mpr h)
  · intro hm
    exact ⟨he, Or.inr (Or.inl ⟨hc, h, hm⟩)⟩

/-- Membership in a regular non-circle arc. -/
theorem mem_reg {r : anglerange} (he : r.isempty = false) (hc : r.fullcircle = false)
    (h : r.lowerborder ≤ r.upperborder) (v : ℚ) :
    r.isinside v = true ↔ (r.lowerborder ≤ v ∧ v ≤ r.upperborder) := by
  rw [isinside_eq_true_iff]
  constructor
  · rintro ⟨-, hcirc | ⟨-, hlt, -⟩ | ⟨-, -, hm⟩⟩
    · simp [hcirc] at hc
    · exact absurd hlt (not_lt.mpr h)
    · exact hm
  · intro hm
    exact ⟨he, Or.inr (Or.inr ⟨hc, h, hm⟩)⟩

/-- Membership in a full-circle arc is unconditional. -/
theorem mem_circle {r : anglerange} (he : r.isempty = false) (hc : r.fullcircle = true)
    (v : ℚ) : r.isinside v = true := by
  simp [anglerange.isinside, he, hc]

/-- Membership in a freshly built result arc (from the default constructor,
bound setters applied), wrapping shape. -/
theorem build_mem_wrap (s : Int) {l u : ℚ} (h : u < l) (v : ℚ) :
    (((anglerange.mk0.setsorttype s).setlower l).setupper u).isinside v = true ↔
      (l ≤ v ∨ v ≤ u) := by
  apply mem_wrap <;>
    simp [anglerange.mk0, anglerange.setsorttype, anglerange.setlower, anglerange.setupper,
      anglerange.isempty, h]

/-- Membership in a freshly built result arc, regular shape. -/
theorem build_mem_reg (s : Int) {l u : ℚ} (h : l ≤ u) (v : ℚ) :
    (((anglerange.mk0.setsorttype s).setlower l).setupper u).isinside v = true ↔
      (l ≤ v ∧ v ≤ u) := by
  apply mem_reg <;>
    simp [anglerange.mk0, anglerange.setsorttype, anglerange.setlower, anglerange.setupper,
      anglerange.isempty, h, not_lt.mpr h]

/-- A `setcircle true` result contains every value. -/
theorem setcircle_mem (r : anglerange) (v : ℚ) :
    ((r.setcircle true).isinside v) = true := by
  simp [anglerange.setcircle, anglerange.isinside, anglerange.isempty]

/-- `setsorttype` does not affect membership. -/
theorem isinside_setsorttype (r : anglerange) (s : Int) (v : ℚ) :
    (r.setsorttype s).isinside v = r.isinside v := by
  simp [anglerange.setsorttype, anglerange.isinside, anglerange.isempty]

/-- Arcs with normalized (angleclass-invariant) borders. -/
def anglerange.InRange (r : anglerange) : Prop :=
  0 ≤ r.lowerborder ∧ r.lowerborder < turn ∧ 0 ≤ r.upperborder ∧ r.upperborder < turn

instance (r : anglerange) : Decidable r.InRange := by
  unfold anglerange.InRange
  infer_instance

/-- `combine` of two non-empty, non-circle, normalized arcs: whenever the
result is non-empty, its membership is exactly the union of the operands'
memberships. -/
theorem combine_isinside_core (a b : anglerange) (ha : a.InRange) (hb : b.InRange)
    (h1 : a.isempty = false) (h2 : b.isempty = false)
    (hc1 : a.fullcircle = false) (hc2 : b.fullcircle = false) (v : ℚ)
    (hne : (a.combine b).isempty = false) :
    ((a.combine b).isinside v = true ↔ (a.isinside v = true ∨ b.isinside v = true)) := by
  obtain ⟨hal0, hal1, hau0, hau1⟩ := ha
  obtain ⟨hbl0, hbl1, hbu0, hbu1⟩ := hb
  unfold anglerange.combine at hne ⊢
  simp only [h1, h2, hc1, hc2, and_self, if_pos, Bool.false_eq_true, if_false, if_true] at hne ⊢
  split_ifs at hne ⊢ with w1 w2 w3 w4 w5 w6 w7 w8 w9 w10 w11 w12 w13
  · -- both wrap, full-circle detection fires
    rw [setcircle_mem]
    simp only [true_iff]
    rw [mem_wrap h1 hc1 w1, mem_wrap h2 hc2 w2]
    rcases w3 with h | h
    · rcases le_or_lt a.lowerborder v with hv | hv
      · exact Or.inl (Or.inl hv)
      · exact Or.inr (Or.inr (by linarith))
    · rcases le_or_lt b.lowerborder v with hv | hv
      · exact Or.inr (Or.inl hv)
      · exact Or.inl (Or.inr (by linarith))
  · -- both wrap, no full circle: bounds are min of lowers / max of uppers
    push_neg at w3
    rw [shiftinrange_eq_self (le_min hal0 hbl0) (lt_of_le_of_lt (min_le_left _ _) hal1),
      shiftinrange_eq_self (le_trans hau0 (le_max_left _ _)) (max_lt hau1 hbu1),
      build_mem_wrap _ (max_lt (lt_min w1 w3.2) (lt_min w3.1 w2)),
      mem_wrap h1 hc1 w1, mem_wrap h2 hc2 w2]
    constructor
    · rintro (hv | hv)
      · rcases min_le_iff.mp hv with h | h
        · exact Or.inl (Or.inl h)
        · exact Or.inr (Or.inl h)
      · rcases le_max_iff.mp hv with h | h
        · exact Or.inl (Or.inr h)
        · exact Or.inr (Or.inr h)
    · rintro ((h | h) | (h | h))
      · exact Or.inl (min_le_iff.mpr (Or.inl h))
      · exact Or.inr (le_max_iff.mpr (Or.inl h))
      · exact Or.inl (min_le_iff.mpr (Or.inr h))
      · exact Or.inr (le_max_iff.mpr (Or.inr h))
  · -- a wraps, b regular, b inside a: result is a's borders
    push_neg at w2
    rw [build_mem_wrap _ w1, mem_wrap h1 hc1 w1, mem_reg h2 hc2 w2]
    constructor
    · exact fun h => Or.inl h
    · rintro (h | ⟨hl, hu⟩)
      · exact h
      · rcases w4 with h | h
        · exact Or.inr (by linarith)
        · exact Or.inl (by linarith)
  · -- a wraps, b regular, bridge: full circle
    push_neg at w2 w4
    rw [setcircle_mem]
    simp only [true_iff]
    rw [mem_wrap h1 hc1 w1, mem_reg h2 hc2 w2]
    rcases le_or_lt a.lowerborder v with hv | hv
    · exact Or.inl (Or.inl hv)
    · rcases le_or_lt v a.upperborder with hv2 | hv2
      · exact Or.inl (Or.inr hv2)
      · exact Or.inr ⟨by linarith [w5.1], by linarith [w5.2]⟩
  · -- a wraps, b regular, overlap with a's upper tail: result [b.lower, a.upper]
    push_neg at w2 w4 w5
    have hres : a.upperborder < b.lowerborder := by
      by_contra hcon
      push_neg at hcon
      have := w5 hcon
      linarith
    rw [build_mem_wrap _ hres, mem_wrap h1 hc1 w1, mem_reg h2 hc2 w2]
    constructor
    · rintro (hv | hv)
      · rcases le_or_lt a.lowerborder v with h | h
        · exact Or.inl (Or.inl h)
        · exact Or.inr ⟨hv, by linarith⟩
      · exact Or.inl (Or.inr hv)
    · rintro ((h | h) | ⟨hl, hu⟩)
      · exact Or.inl (by linarith [w4.2])
      · exact Or.inr h
      · exact Or.inl hl
  · -- a wraps, b regular, overlap with a's lower tail: result [a.lower, b.upper]
    push_neg at w2 w4 w5 w6
    rw [build_mem_wrap _ (by linarith : b.upperborder < a.lowerborder),
      mem_wrap h1 hc1 w1, mem_reg h2 hc2 w2]
    constructor
    · rintro (hv | hv)
      · exact Or.inl (Or.inl hv)
      · rcases le_or_lt v a.upperborder with h | h
        · exact Or.inl (Or.inr h)
        · exact Or.inr ⟨by linarith, hv⟩
    · rintro ((h | h) | ⟨hl, hu⟩)
      · exact Or.inl h
      · exact Or.inr (by linarith [w4.1])
      · exact Or.inr hu
  · -- a wraps, b regular, disjoint: result stays empty, contradiction
    simp [anglerange.mk0, anglerange.setsorttype, anglerange.isempty] at hne
  · -- a regular, b wraps, a inside b: result is b's borders
    push_neg at w1
    rw [build_mem_wrap _ w8, mem_reg h1 hc1 w1, mem_wrap h2 hc2 w8]
    constructor
    · exact fun h => Or.inr h
    · rintro (⟨hl, hu⟩ | h)
      · rcases w9 with h | h
        · exact Or.inr (by linarith)
        · exact Or.inl (by linarith)
      · exact h
  · -- a regular, b wraps, bridge: full circle
    push_neg at w1 w9
    rw [setcircle_mem]
    simp only [true_iff]
    rw [mem_reg h1 hc1 w1, mem_wrap h2 hc2 w8]
    rcases le_or_lt b.lowerborder v with hv | hv
    · exact Or.inr (Or.inl hv)
    · rcases le_or_lt v b.upperborder with hv2 | hv2
      · exact Or.inr (Or.inr hv2)
      · exact Or.inl ⟨by linarith [w10.1], by linarith [w10.2]⟩
  · -- a regular, b wraps, overlap with b's low tail: result [b.lower, a.upper]
    push_neg at w1 w9 w10
    have hres : a.upperborder < b.lowerborder := w10 w11
    rw [build_mem_wrap _ hres, mem_reg h1 hc1 w1, mem_wrap h2 hc2 w8]
    constructor
    · rintro (hv | hv)
      · exact Or.inr (Or.inl hv)
      · rcases le_or_lt v b.upperborder with h | h
        · exact Or.inr (Or.inr h)
        · exact Or.inl ⟨by linarith, hv⟩
    · rintro (⟨hl, hu⟩ | (h | h))
      · exact Or.inr hu
      · exact Or.inl h
      · exact Or.inr (by linarith [w9.1])
  · -- a regular, b wraps, overlap with b's upper tail: result [a.lower, b.upper]
    push_neg at w1 w9 w10 w11
    rw [build_mem_wrap _ (by linarith : b.upperborder < a.lowerborder),
      mem_reg h1 hc1 w1, mem_wrap h2 hc2 w8]
    constructor
    · rintro (hv | hv)
      · rcases le_or_lt b.lowerborder v with h | h
        · exact Or.inr (Or.inl h)
        · exact Or.inl ⟨hv, by linarith⟩
      · exact Or.inr (Or.inr hv)
    · rintro (⟨hl, hu⟩ | (h | h))
      · exact Or.inl hl
      · exact Or.inl (by linarith [w9.2])
      · exact Or.inr h
  · -- a regular, b wraps, disjoint: result stays empty, contradiction
    simp [anglerange.mk0, anglerange.setsorttype, anglerange.isempty] at hne
  · -- both regular, overlapping: result [min of lowers, max of uppers]
    push_neg at w1 w8
    have m1 : min b.upperborder a.upperborder ≤ b.upperborder := min_le_left _ _
    have m2 : min b.upperborder a.upperborder ≤ a.upperborder := min_le_right _ _
    have m3 : b.lowerborder ≤ max b.lowerborder a.lowerborder := le_max_left _ _
    have m4 : a.lowerborder ≤ max b.lowerborder a.lowerborder := le_max_right _ _
    have hlu : min b.lowerborder a.lowerborder ≤ max b.upperborder a.upperborder := by
      have q1 : min b.lowerborder a.lowerborder ≤ b.lowerborder := min_le_left _ _
      have q2 : b.upperborder ≤ max b.upperborder a.upperborder := le_max_left _ _
      linarith
    rw [shiftinrange_eq_self (le_min hbl0 hal0) (lt_of_le_of_lt (min_le_left _ _) hbl1),
      shiftinrange_eq_self (le_trans hbu0 (le_max_left _ _)) (max_lt hbu1 hau1),
      build_mem_reg _ hlu, mem_reg h1 hc1 w1, mem_reg h2 hc2 w8]
    constructor
    · rintro ⟨hl, hu⟩
      rcases le_or_lt a.lowerborder v with h | h
      · rcases le_or_lt v a.upperborder with h3 | h3
        · exact Or.inl ⟨h, h3⟩
        · refine Or.inr ⟨by linarith, ?_⟩
          rcases le_max_iff.mp hu with h4 | h4
          · exact h4
          · linarith
      · refine Or.inr ⟨?_, by linarith⟩
        rcases min_le_iff.mp hl with h4 | h4
        · exact h4
        · linarith
    · rintro (⟨hl, hu⟩ | ⟨hl, hu⟩)
      · exact ⟨le_trans (min_le_right _ _) hl, le_trans hu (le_max_right _ _)⟩
      · exact ⟨le_trans (min_le_left _ _) hl, le_trans hu (le_max_left _ _)⟩
  · -- both regular, disjoint: result stays empty, contradiction
    simp [anglerange.mk0, anglerange.setsorttype, anglerange.isempty] at hne

/-- If either operand is empty, `combine` returns an empty arc. -/
theorem combine_operand_empty {a b : anglerange}
    (h : a.isempty = true ∨ b.isempty = true) : (a.combine b).isempty = true := by
  have hcond : ¬(a.isempty = false ∧ b.isempty = false) := by
    rcases h with h | h <;> simp [h]
  unfold anglerange.combine
  rw [if_neg hcond]
  simp [anglerange.mk0, anglerange.setsorttype, anglerange.isempty]

/-- A full-circle left operand: the full-circle flag and non-emptiness
survive every branch of `combine`. -/
theorem combine_fullcircle_left {a b : anglerange}
    (h1 : a.isempty = false) (h2 : b.isempty = false) (hc : a.fullcircle = true) :
    (a.combine b).fullcircle = true ∧ (a.combine b).isempty = false := by
  obtain ⟨hu1, hl1⟩ := (isempty_eq_false_iff a).mp h1
  obtain ⟨hu2, hl2⟩ := (isempty_eq_false_iff b).mp h2
  unfold anglerange.combine
  simp only [h1, h2, hc, and_self, if_pos, if_true]
  split_ifs <;>
    simp_all [anglerange.setcircle, anglerange.setlower, anglerange.setupper,
      anglerange.setsorttype, anglerange.isempty]

/-- A full-circle right operand short-circuits `combine` to a copy of it
(with the receiver's sort mode). -/
theorem combine_fullcircle_right {a b : anglerange}
    (h1 : a.isempty = false) (h2 : b.isempty = false) (hc : b.fullcircle = true) :
    a.combine b = b.setsorttype a.sortby := by
  unfold anglerange.combine
  simp only [h1, h2, hc, and_self, if_pos, if_true]

/-- Union exactness of `combine` (claim C3's content, helper form): for
normalized arcs, a non-empty result contains exactly the angles of the two
operands. -/
theorem combine_isinside (a b : anglerange) (ha : a.InRange) (hb : b.InRange) (v : ℚ)
    (hne : (a.combine b).isempty = false) :
    ((a.combine b).isinside v = true ↔ (a.isinside v = true ∨ b.isinside v = true)) := by
  have h1 : a.isempty = false := by
    by_contra hx
    rw [Bool.not_eq_false] at hx
    rw [combine_operand_empty (Or.inl hx)] at hne
    cases hne
  have h2 : b.isempty = false := by
    by_contra hx
    rw [Bool.not_eq_false] at hx
    rw [combine_operand_empty (Or.inr hx)] at hne
    cases hne
  by_cases hcb : b.fullcircle = true
  · rw [combine_fullcircle_right h1 h2 hcb, isinside_setsorttype, mem_circle h2 hcb]
    simp [mem_circle h2 hcb]
  · by_cases hca : a.fullcircle = true
    · obtain ⟨hf, hne2⟩ := combine_fullcircle_left h1 h2 hca
      rw [mem_circle hne2 hf]
      simp [mem_circle h1 hca]
    · rw [Bool.not_eq_true] at hca hcb
      exact combine_isinside_core a b ha hb h1 h2 hca hcb v hne

/-- Every non-empty arc contains its own lower border. -/
theorem isinside_lowerborder {r : anglerange} (h : r.isempty = false) :
    r.isinside r.lowerborder = true := by
  unfold anglerange.isinside
  rw [if_neg (by simp [h])]
  split_ifs with hc hw
  · rfl
  · simp
  · simp [not_lt.mp hw]

/-- An empty `combine` result means the operands share no angle. -/
theorem combine_empty_nocommon {a b : anglerange}
    (h : (a.combine b).isempty = true) (v : ℚ) :
    ¬(a.isinside v = true ∧ b.isinside v = true) := by
  rintro ⟨hva, hvb⟩
  have h1 : a.isempty = false := ((isinside_eq_true_iff a v).mp hva).1
  have h2 : b.isempty = false := ((isinside_eq_true_iff b v).mp hvb).1
  by_cases hcb : b.fullcircle = true
  · rw [combine_fullcircle_right h1 h2 hcb] at h
    simp [anglerange.setsorttype, anglerange.isempty] at h
    obtain ⟨x1, x2⟩ := (isempty_eq_false_iff b).mp h2
    rcases h with h | h <;> simp_all
  · by_cases hca : a.fullcircle = true
    · obtain ⟨-, hne⟩ := combine_fullcircle_left h1 h2 hca
      rw [h] at hne
      cases hne
    · rw [Bool.not_eq_true] at hca hcb
      unfold anglerange.combine at h
      simp only [h1, h2, hca, hcb, and_self, if_pos, Bool.false_eq_true, if_false,
        if_true] at h
      split_ifs at h with w1 w2 w3 w4 w5 w6 w7 w8 w9 w10 w11 w12 w13 <;>
        try simp [anglerange.setcircle, anglerange.setlower, anglerange.setupper,
          anglerange.setsorttype, anglerange.mk0, anglerange.isempty] at h
      · -- a wraps, b regular, all four tests fail: genuinely disjoint
        push_neg at w2 w4 w5 w6 w7
        rw [mem_wrap h1 hca w1] at hva
        rw [mem_reg h2 hcb w2] at hvb
        rcases hva with hv | hv <;> linarith [hvb.1, hvb.2]
      · -- a regular, b wraps, all four tests fail
        push_neg at w1 w9 w10 w11 w12
        rw [mem_reg h1 hca w1] at hva
        rw [mem_wrap h2 hcb w8] at hvb
        rcases hvb with hv | hv <;> linarith [hva.1, hva.2]
      · -- both regular, no overlap
        push_neg at w1 w8 w13
        rw [mem_reg h1 hca w1] at hva
        rw [mem_reg h2 hcb w8] at hvb
        have q1 : max b.lowerborder a.lowerborder ≤ v := max_le hvb.1 hva.1
        have q2 : v ≤ min b.upperborder a.upperborder := le_min hvb.2 hva.2
        linarith

/-- A non-empty `combine` result exhibits a common angle of the operands. -/
theorem combine_nonempty_common {a b : anglerange}
    (hne : (a.combine b).isempty = false) :
    ∃ v : ℚ, a.isinside v = true ∧ b.isinside v = true := by
  have h1 : a.isempty = false := by
    by_contra hx
    rw [Bool.not_eq_false] at hx
    rw [combine_operand_empty (Or.inl hx)] at hne
    cases hne
  have h2 : b.isempty = false := by
    by_contra hx
    rw [Bool.not_eq_false] at hx
    rw [combine_operand_empty (Or.inr hx)] at hne
    cases hne
  by_cases hcb : b.fullcircle = true
  · exact ⟨a.lowerborder, isinside_lowerborder h1, mem_circle h2 hcb _⟩
  · by_cases hca : a.fullcircle = true
    · exact ⟨b.lowerborder, mem_circle h1 hca _, isinside_lowerborder h2⟩
    · rw [Bool.not_eq_true] at hca hcb
      unfold anglerange.combine at hne
      simp only [h1, h2, hca, hcb, and_self, if_pos, Bool.false_eq_true, if_false,
        if_true] at hne
      split_ifs at hne with w1 w2 w3 w4 w5 w6 w7 w8 w9 w10 w11 w12 w13
      · -- both wrap, circle: the larger lower border is in both
        refine ⟨max a.lowerborder b.lowerborder, ?_, ?_⟩
        · rw [mem_wrap h1 hca w1]
          exact Or.inl (le_max_left _ _)
        · rw [mem_wrap h2 hcb w2]
          exact Or.inl (le_max_right _ _)
      · -- both wrap, no circle: same point still common
        refine ⟨max a.lowerborder b.lowerborder, ?_, ?_⟩
        · rw [mem_wrap h1 hca w1]
          exact Or.inl (le_max_left _ _)
        · rw [mem_wrap h2 hcb w2]
          exact Or.inl (le_max_right _ _)
      · -- a wraps, b inside a: b's lower border
        push_neg at w2
        refine ⟨b.lowerborder, ?_, ?_⟩
        · rw [mem_wrap h1 hca w1]
          rcases w4 with h | h
          · exact Or.inr (by linarith)
          · exact Or.inl h
        · rw [mem_reg h2 hcb w2]
          exact ⟨le_rfl, w2⟩
      · -- a wraps, bridge: a's upper border
        push_neg at w2 w4
        refine ⟨a.upperborder, ?_, ?_⟩
        · rw [mem_wrap h1 hca w1]
          exact Or.inr le_rfl
        · rw [mem_reg h2 hcb w2]
          exact ⟨w5.1, by linarith [w4.1]⟩
      · -- a wraps, upper-tail overlap: a's lower border
        push_neg at w2 w4 w5
        refine ⟨a.lowerborder, ?_, ?_⟩
        · rw [mem_wrap h1 hca w1]
          exact Or.inl le_rfl
        · rw [mem_reg h2 hcb w2]
          exact ⟨by linarith [w4.2], w6⟩
      · -- a wraps, lower-tail overlap: a's upper border
        push_neg at w2 w4 w5 w6
        refine ⟨a.upperborder, ?_, ?_⟩
        · rw [mem_wrap h1 hca w1]
          exact Or.inr le_rfl
        · rw [mem_reg h2 hcb w2]
          exact ⟨w7, by linarith [w4.1]⟩
      · -- a wraps, disjoint: result empty, contradiction
        simp [anglerange.mk0, anglerange.setsorttype, anglerange.isempty] at hne
      · -- b wraps, a inside b: a's lower border
        push_neg at w1
        refine ⟨a.lowerborder, ?_, ?_⟩
        · rw [mem_reg h1 hca w1]
          exact ⟨le_rfl, w1⟩
        · rw [mem_wrap h2 hcb w8]
          rcases w9 with h | h
          · exact Or.inr (by linarith)
          · exact Or.inl h
      · -- b wraps, bridge: b's lower border
        push_neg at w1 w9
        refine ⟨b.lowerborder, ?_, ?_⟩
        · rw [mem_reg h1 hca w1]
          exact ⟨by linarith [w9.2], w10.2⟩
        · rw [mem_wrap h2 hcb w8]
          exact Or.inl le_rfl
      · -- b wraps, low-tail overlap: a's lower border
        push_neg at w1 w9 w10
        refine ⟨a.lowerborder, ?_, ?_⟩
        · rw [mem_reg h1 hca w1]
          exact ⟨le_rfl, w1⟩
        · rw [mem_wrap h2 hcb w8]
          exact Or.inr w11
      · -- b wraps, upper-tail overlap: a's upper border
        push_neg at w1 w9 w10 w11
        refine ⟨a.upperborder, ?_, ?_⟩
        · rw [mem_reg h1 hca w1]
          exact ⟨w1, le_rfl⟩
        · rw [mem_wrap h2 hcb w8]
          exact Or.inl w12
      · -- b wraps, disjoint: contradiction
        simp [anglerange.mk0, anglerange.setsorttype, anglerange.isempty] at hne
      · -- both regular, overlapping: the larger lower border
        push_neg at w1 w8
        have q1 : min b.upperborder a.upperborder ≤ b.upperborder := min_le_left _ _
        have q2 : min b.upperborder a.upperborder ≤ a.upperborder := min_le_right _ _
        refine ⟨max b.lowerborder a.lowerborder, ?_, ?_⟩
        · rw [mem_reg h1 hca w1]
          exact ⟨le_max_right _ _, by linarith⟩
        · rw [mem_reg h2 hcb w8]
          exact ⟨le_max_left _ _, by linarith⟩
      · -- both regular, disjoint: contradiction
        simp [anglerange.mk0, anglerange.setsorttype, anglerange.isempty] at hne

/-- C3: whenever `combine` returns a non-empty arc, that arc's membership is
exactly the union of the operands' memberships (a full-circle result
contains every angle, via `isinside`).  The borders of program arcs are
`angleclass` values, hence the normalization hypotheses. -/
theorem claim_C3_combine_is_exact_union (a b : anglerange)
    (ha : a.InRange) (hb : b.InRange)
    (hne : (a.combine b).isempty = false) (v : ℚ) :
    ((a.combine b).isinside v = true ↔ (a.isinside v = true ∨ b.isinside v = true)) :=
  combine_isinside a b ha hb v hne

/-- Witness for C3: `[350°,10°] ∪ [5°,20°]` is the wrapping arc `[350°,20°]`;
the angle `15°` lies in it and in the second operand. -/
theorem claim_C3_combine_is_exact_union_witness :
    (((anglerange.mk2 350 10).combine (anglerange.mk2 5 20)).isinside 15 = true ↔
      ((anglerange.mk2 350 10).isinside 15 = true ∨ (anglerange.mk2 5 20).isinside 15 = true)) :=
  claim_C3_combine_is_exact_union (anglerange.mk2 350 10) (anglerange.mk2 5 20)
    (by constructor <;> norm_num [anglerange.mk2, turn])
    (by constructor <;> norm_num [anglerange.mk2, turn])
    (by with_unfolding_all rfl) 15

/-- C2: for two non-empty, non-full-circle normalized arcs that both wrap
the zero cut, `combine` marks the result full-circle exactly when the
operands jointly cover every angle of the turn, and that is decided by the
test `lower₁ ≤ upper₂ ∨ lower₂ ≤ upper₁`. -/
theorem claim_C2_two_wrap_full_circle_detection (a b : anglerange)
    (ha : a.InRange) (hb : b.InRange)
    (h1 : a.isempty = false) (h2 : b.isempty = false)
    (hc1 : a.fullcircle = false) (hc2 : b.fullcircle = false)
    (w1 : a.upperborder < a.lowerborder) (w2 : b.upperborder < b.lowerborder) :
    ((a.combine b).iscircle = true ↔
      (∀ v : ℚ, 0 ≤ v → v < turn → (a.isinside v = true ∨ b.isinside v = true))) ∧
    ((a.combine b).iscircle = true ↔
      (a.lowerborder ≤ b.upperborder ∨ b.lowerborder ≤ a.upperborder)) := by
  obtain ⟨hal0, hal1, hau0, hau1⟩ := ha
  obtain ⟨hbl0, hbl1, hbu0, hbu1⟩ := hb
  have hCirc : (a.combine b).iscircle = true ↔
      (a.lowerborder ≤ b.upperborder ∨ b.lowerborder ≤ a.upperborder) := by
    unfold anglerange.combine
    simp only [h1, h2, hc1, hc2, and_self, Bool.false_eq_true, if_false, if_true]
    rw [if_pos (show a.lowerborder > a.upperborder from w1),
      if_pos (show b.lowerborder > b.upperborder from w2)]
    by_cases hT : a.lowerborder ≤ b.upperborder ∨ b.lowerborder ≤ a.upperborder
    · rw [if_pos hT]
      simp [anglerange.setcircle, anglerange.setsorttype, anglerange.mk0,
        anglerange.iscircle, anglerange.isempty, hT]
    · rw [if_neg hT]
      simp only [anglerange.setlower, anglerange.setupper, anglerange.setsorttype,
        anglerange.mk0, anglerange.iscircle, anglerange.isempty]
      simp only [Bool.false_and, Bool.false_eq_true, false_iff]
      exact hT
  have hTest : (a.lowerborder ≤ b.upperborder ∨ b.lowerborder ≤ a.upperborder) ↔
      (∀ v : ℚ, 0 ≤ v → v < turn → (a.isinside v = true ∨ b.isinside v = true)) := by
    constructor
    · intro hT v h0 hv
      rw [mem_wrap h1 hc1 w1, mem_wrap h2 hc2 w2]
      rcases hT with h | h
      · rcases le_or_lt a.lowerborder v with hle | hlt
        · exact Or.inl (Or.inl hle)
        · exact Or.inr (Or.inr (by linarith))
      · rcases le_or_lt b.lowerborder v with hle | hlt
        · exact Or.inr (Or.inl hle)
        · exact Or.inl (Or.inr (by linarith))
    · intro hcov
      by_contra hT
      push_neg at hT
      obtain ⟨hT1, hT2⟩ := hT
      have hmm : max a.upperborder b.upperborder < min a.lowerborder b.lowerborder :=
        max_lt (lt_min w1 hT2) (lt_min hT1 w2)
      set v := (max a.upperborder b.upperborder + min a.lowerborder b.lowerborder) / 2 with hv
      have hv1 : max a.upperborder b.upperborder < v := by
        rw [hv]; linarith
      have hv2 : v < min a.lowerborder b.lowerborder := by
        rw [hv]; linarith
      have h0 : 0 ≤ v :=
        le_of_lt (lt_of_le_of_lt (le_trans hau0 (le_max_left _ _)) hv1)
      have hvt : v < turn :=
        lt_of_lt_of_le hv2 (le_of_lt (lt_of_le_of_lt (min_le_left _ _) hal1))
      have := hcov v h0 hvt
      rw [mem_wrap h1 hc1 w1, mem_wrap h2 hc2 w2] at this
      have m1 : min a.lowerborder b.lowerborder ≤ a.lowerborder := min_le_left _ _
      have m2 : min a.lowerborder b.lowerborder ≤ b.lowerborder := min_le_right _ _
      have m3 : a.upperborder ≤ max a.upperborder b.upperborder := le_max_left _ _
      have m4 : b.upperborder ≤ max a.upperborder b.upperborder := le_max_right _ _
      rcases this with (h | h) | (h | h) <;> linarith
  exact ⟨hCirc.trans hTest, hCirc⟩

/-- Witness for C2 at two concrete wrapping arcs (`[350°,10°]`, `[170°,160°]`)
whose union leaves a gap, so both equivalent conditions are false. -/
theorem claim_C2_two_wrap_full_circle_detection_witness :
    (((anglerange.mk2 350 10).combine (anglerange.mk2 170 160)).iscircle = true ↔
      (∀ v : ℚ, 0 ≤ v → v < turn →
        ((anglerange.mk2 350 10).isinside v = true ∨
          (anglerange.mk2 170 160).isinside v = true))) ∧
    (((anglerange.mk2 350 10).combine (anglerange.mk2 170 160)).iscircle = true ↔
      ((anglerange.mk2 350 10).lowerborder ≤ (anglerange.mk2 170 160).upperborder ∨
        (anglerange.mk2 170 160).lowerborder ≤ (anglerange.mk2 350 10).upperborder)) :=
  claim_C2_two_wrap_full_circle_detection (anglerange.mk2 350 10) (anglerange.mk2 170 160)
    (by constructor <;> norm_num [anglerange.mk2, turn])
    (by constructor <;> norm_num [anglerange.mk2, turn])
    rfl rfl rfl rfl (by norm_num [anglerange.mk2]) (by norm_num [anglerange.mk2])

/-- If either operand is empty, `overlap` returns an empty arc. -/
theorem overlap_operand_empty {a b : anglerange}
    (h : a.isempty = true ∨ b.isempty = true) : (a.overlap b).isempty = true := by
  have hcond : ¬(a.isempty = false ∧ b.isempty = false) := by
    rcases h with h | h <;> simp [h]
  unfold anglerange.overlap
  rw [if_neg hcond]
  simp [anglerange.mk0, anglerange.setsorttype, anglerange.isempty]

/-- C6: the intersection result is sound — every angle inside
`a.overlap(b)` is inside both operands (even where the true intersection
has two components and only one piece is returned). -/
theorem claim_C6_overlap_sound (a b : anglerange) (ha : a.InRange) (hb : b.InRange)
    (v : ℚ) (h : (a.overlap b).isinside v = true) :
    a.isinside v = true ∧ b.isinside v = true := by
  obtain ⟨hal0, hal1, hau0, hau1⟩ := ha
  obtain ⟨hbl0, hbl1, hbu0, hbu1⟩ := hb
  have h1 : a.isempty = false := by
    by_contra hx
    rw [Bool.not_eq_false] at hx
    rw [isinside_eq_true_iff, overlap_operand_empty (Or.inl hx)] at h
    exact absurd h.1 (by simp)
  have h2 : b.isempty = false := by
    by_contra hx
    rw [Bool.not_eq_false] at hx
    rw [isinside_eq_true_iff, overlap_operand_empty (Or.inr hx)] at h
    exact absurd h.1 (by simp)
  by_cases hca : a.fullcircle = true
  · unfold anglerange.overlap at h
    simp only [h1, h2, hca, and_self, if_pos, if_true] at h
    rw [isinside_setsorttype] at h
    exact ⟨mem_circle h1 hca v, h⟩
  · by_cases hcb : b.fullcircle = true
    · unfold anglerange.overlap at h
      simp only [h1, h2, hca, hcb, and_self, if_pos, Bool.false_eq_true, if_false,
        if_true] at h
      exact ⟨h, mem_circle h2 hcb v⟩
    · rw [Bool.not_eq_true] at hca hcb
      unfold anglerange.overlap at h
      simp only [h1, h2, hca, hcb, and_self, if_pos, Bool.false_eq_true, if_false,
        if_true] at h
      split_ifs at h with w1 w2 w3 w4 w5 w6 w7 w8 w9 w10
      · -- both wrap: bounds are max of lowers / min of uppers
        rw [shiftinrange_eq_self (le_trans hal0 (le_max_left _ _)) (max_lt hal1 hbl1),
          shiftinrange_eq_self (le_min hau0 hbu0) (lt_of_le_of_lt (min_le_left _ _) hau1),
          build_mem_wrap _ (lt_of_le_of_lt (min_le_left _ _)
            (lt_of_lt_of_le w1 (le_max_left _ _)))] at h
        rw [mem_wrap h1 hca w1, mem_wrap h2 hcb w2]
        have m1 : a.lowerborder ≤ max a.lowerborder b.lowerborder := le_max_left _ _
        have m2 : b.lowerborder ≤ max a.lowerborder b.lowerborder := le_max_right _ _
        have m3 : min a.upperborder b.upperborder ≤ a.upperborder := min_le_left _ _
        have m4 : min a.upperborder b.upperborder ≤ b.upperborder := min_le_right _ _
        rcases h with hv | hv
        · exact ⟨Or.inl (by linarith), Or.inl (by linarith)⟩
        · exact ⟨Or.inr (by linarith), Or.inr (by linarith)⟩
      · -- a wraps, b inside a: result is b's borders
        push_neg at w2
        rw [build_mem_reg _ w2] at h
        rw [mem_wrap h1 hca w1, mem_reg h2 hcb w2]
        refine ⟨?_, h⟩
        rcases w3 with hcase | hcase
        · exact Or.inr (by linarith [h.2])
        · exact Or.inl (by linarith [h.1])
      · -- a wraps, overlap with a's upper tail: result [a.lower, b.upper]
        push_neg at w2 w3
        rw [build_mem_reg _ w4] at h
        rw [mem_wrap h1 hca w1, mem_reg h2 hcb w2]
        exact ⟨Or.inl h.1, ⟨by linarith [h.1, w3.2], h.2⟩⟩
      · -- a wraps, overlap with a's lower tail: result [b.lower, a.upper]
        push_neg at w2 w3 w4
        rw [build_mem_reg _ w5] at h
        rw [mem_wrap h1 hca w1, mem_reg h2 hcb w2]
        exact ⟨Or.inr h.2, ⟨h.1, by linarith [h.2, w3.1]⟩⟩
      · -- a wraps, disjoint: the stayed-empty result contains nothing
        rw [isinside_eq_true_iff] at h
        exact absurd h.1 (by simp [anglerange.mk0, anglerange.setsorttype, anglerange.isempty])
      · -- b wraps, a inside b: result is a's borders
        push_neg at w1
        rw [build_mem_reg _ w1] at h
        rw [mem_reg h1 hca w1, mem_wrap h2 hcb w6]
        refine ⟨h, ?_⟩
        rcases w7 with hcase | hcase
        · exact Or.inr (by linarith [h.2])
        · exact Or.inl (by linarith [h.1])
      · -- b wraps, overlap with b's low tail: result [a.lower, b.upper]
        push_neg at w1 w7
        rw [build_mem_reg _ w8] at h
        rw [mem_reg h1 hca w1, mem_wrap h2 hcb w6]
        exact ⟨⟨h.1, by linarith [h.2, w7.1]⟩, Or.inr h.2⟩
      · -- b wraps, overlap with b's upper tail: result [b.lower, a.upper]
        push_neg at w1 w7 w8
        rw [build_mem_reg _ w9] at h
        rw [mem_reg h1 hca w1, mem_wrap h2 hcb w6]
        exact ⟨⟨by linarith [h.1, w7.2], h.2⟩, Or.inl h.1⟩
      · -- b wraps, disjoint: the stayed-empty result contains nothing
        rw [isinside_eq_true_iff] at h
        exact absurd h.1 (by simp [anglerange.mk0, anglerange.setsorttype, anglerange.isempty])
      · -- both regular: standard interval intersection
        push_neg at w1 w6
        rw [shiftinrange_eq_self (le_trans hbl0 (le_max_left _ _)) (max_lt hbl1 hal1),
          shiftinrange_eq_self (le_min hbu0 hau0) (lt_of_le_of_lt (min_le_left _ _) hbu1),
          build_mem_reg _ w10] at h
        rw [mem_reg h1 hca w1, mem_reg h2 hcb w6]
        have m1 : b.lowerborder ≤ max b.lowerborder a.lowerborder := le_max_left _ _
        have m2 : a.lowerborder ≤ max b.lowerborder a.lowerborder := le_max_right _ _
        have m3 : min b.upperborder a.upperborder ≤ b.upperborder := min_le_left _ _
        have m4 : min b.upperborder a.upperborder ≤ a.upperborder := min_le_right _ _
        exact ⟨⟨by linarith [h.1], by linarith [h.2]⟩, ⟨by linarith [h.1], by linarith [h.2]⟩⟩
      · -- both regular, disjoint
        rw [isinside_eq_true_iff] at h
        exact absurd h.1 (by simp [anglerange.mk0, anglerange.setsorttype, anglerange.isempty])

/-- Witness for C6: `[350°,10°] ∩ [0°,5°]` contains `3°`, which is inside
both operands. -/
theorem claim_C6_overlap_sound_witness :
    (anglerange.mk2 350 10).isinside 3 = true ∧ (anglerange.mk2 0 5).isinside 3 = true :=
  claim_C6_overlap_sound (anglerange.mk2 350 10) (anglerange.mk2 0 5)
    (by constructor <;> norm_num [anglerange.mk2, turn])
    (by constructor <;> norm_num [anglerange.mk2, turn])
    3 (by with_unfolding_all rfl)

/-! ## The merge-pass invariant (claim C1) -/

/-- Two arcs share no angle. -/
def NoCommon (a b : anglerange) : Prop :=
  ∀ v : ℚ, ¬(a.isinside v = true ∧ b.isinside v = true)

theorem NoCommon.symm {a b : anglerange} (h : NoCommon a b) : NoCommon b a :=
  fun v hv => h v ⟨hv.2, hv.1⟩

/-- Arcs sharing no angle combine to the empty arc. -/
theorem nocommon_combine_empty {a b : anglerange} (h : NoCommon a b) :
    (a.combine b).isempty = true := by
  by_contra hx
  rw [Bool.not_eq_true] at hx
  obtain ⟨v, hv⟩ := combine_nonempty_common hx
  exact h v hv

set_option maxHeartbeats 1600000 in
/-- `combine` keeps borders normalized. -/
theorem combine_inrange {a b : anglerange} (ha : a.InRange) (hb : b.InRange) :
    (a.combine b).InRange := by
  obtain ⟨q1, q2, q3, q4⟩ := ha
  obtain ⟨q5, q6, q7, q8⟩ := hb
  have s1 := shiftinrange_mem (min a.lowerborder b.lowerborder)
  have s2 := shiftinrange_mem (max a.upperborder b.upperborder)
  have s3 := shiftinrange_mem (min b.lowerborder a.lowerborder)
  have s4 := shiftinrange_mem (max b.upperborder a.upperborder)
  have ht : (0:ℚ) < turn := turn_pos
  unfold anglerange.combine
  simp only [anglerange.InRange]

  split_ifs <;>
    (try simp only [anglerange.mk0, anglerange.setsorttype,
      anglerange.setlower, anglerange.setupper, anglerange.setcircle, if_true]) <;>
    refine ⟨?_, ?_, ?_, ?_⟩ <;>
    first
      | assumption
      | exact s1.1 | exact s1.2 | exact s2.1 | exact s2.2
      | exact s3.1 | exact s3.2 | exact s4.1 | exact s4.2
      | exact le_refl 0

/-- Specification of the inner scan: the kept tail is a sublist of the
input, everything stays normalized, and (for a pairwise-disjoint input
tail) the absorbed union shares no angle with any kept arc. -/
theorem innerScan_spec (x : anglerange) (hx : x.InRange) :
    ∀ T : List anglerange, (∀ r ∈ T, r.InRange) → T.Pairwise NoCommon →
      ((angleset.innerScan x T).1.InRange ∧
        (∀ r ∈ (angleset.innerScan x T).2, r.InRange) ∧
        (angleset.innerScan x T).2.Sublist T ∧
        (∀ t ∈ (angleset.innerScan x T).2, NoCommon (angleset.innerScan x T).1 t)) := by
  intro T
  induction T with
  | nil =>
      intro _ _
      exact ⟨hx, by simp [angleset.innerScan], by simp [angleset.innerScan],
        by simp [angleset.innerScan]⟩
  | cons c rest ih =>
      intro hIn hPw
      have hcIn : c.InRange := hIn c (List.mem_cons_self c rest)
      have hrestIn : ∀ r ∈ rest, r.InRange := fun r hr => hIn r (List.mem_cons_of_mem c hr)
      obtain ⟨hPwHead, hPwRest⟩ := List.pairwise_cons.mp hPw
      obtain ⟨ih1, ih2, ih3, ih4⟩ := ih hrestIn hPwRest
      by_cases hmerge : ((angleset.innerScan x rest).1.combine c).isempty = true
      · simp only [angleset.innerScan, hmerge, if_true]
        refine ⟨ih1, ?_, List.Sublist.cons₂ c ih3, ?_⟩
        · intro r hr
          rcases List.mem_cons.mp hr with hr | hr
          · rw [hr]; exact hcIn
          · exact ih2 r hr
        · intro t ht
          rcases List.mem_cons.mp ht with ht | ht
          · rw [ht]
            exact fun v hv => combine_empty_nocommon hmerge v hv
          · exact ih4 t ht
      · rw [Bool.not_eq_true] at hmerge
        simp only [angleset.innerScan, hmerge, Bool.false_eq_true, if_false]
        refine ⟨combine_inrange ih1 hcIn, ih2, List.Sublist.cons c ih3, ?_⟩
        intro t ht v hv
        obtain ⟨hv1, hv2⟩ := hv
        rw [combine_isinside _ _ ih1 hcIn v hmerge] at hv1
        rcases hv1 with hv1 | hv1
        · exact ih4 t ht v ⟨hv1, hv2⟩
        · have htrest : t ∈ rest := ih3.mem ht
          exact hPwHead t htrest v ⟨hv1, hv2⟩

/-- Specification of the outer scan: on a normalized storage list it
produces a pairwise-disjoint, normalized list. -/
theorem outerScan_spec :
    ∀ L : List anglerange, (∀ r ∈ L, r.InRange) →
      ((∀ r ∈ angleset.outerScan L, r.InRange) ∧
        (angleset.outerScan L).Pairwise NoCommon) := by
  intro L
  induction L with
  | nil => exact fun _ => ⟨by simp [angleset.outerScan], by simp [angleset.outerScan]⟩
  | cons x xs ih =>
      intro hIn
      have hxIn : x.InRange := hIn x (List.mem_cons_self x xs)
      have hxsIn : ∀ r ∈ xs, r.InRange := fun r hr => hIn r (List.mem_cons_of_mem x hr)
      obtain ⟨ih1, ih2⟩ := ih hxsIn
      obtain ⟨s1, s2, s3, s4⟩ := innerScan_spec x hxIn (angleset.outerScan xs) ih1 ih2
      simp only [angleset.outerScan]
      constructor
      · intro r hr
        rcases List.mem_cons.mp hr with hr | hr
        · rw [hr]; exact s1
        · exact s2 r hr
      · exact List.pairwise_cons.mpr ⟨s4, ih2.sublist s3⟩

/-- The inner scan is the identity when the current arc combines emptily
with every arc of the tail. -/
theorem innerScan_fixpoint (x : anglerange) :
    ∀ T : List anglerange, (∀ t ∈ T, (x.combine t).isempty = true) →
      angleset.innerScan x T = (x, T) := by
  intro T
  induction T with
  | nil => intro _; rfl
  | cons c rest ih =>
      intro h
      have hrest := ih fun t ht => h t (List.mem_cons_of_mem c ht)
      simp only [angleset.innerScan, hrest, h c (List.mem_cons_self c rest), if_true]

/-- The outer scan is the identity on a pairwise-disjoint list. -/
theorem outerScan_fixpoint :
    ∀ L : List anglerange, L.Pairwise NoCommon → angleset.outerScan L = L := by
  intro L
  induction L with
  | nil => intro _; rfl
  | cons x xs ih =>
      intro hPw
      obtain ⟨hHead, hRest⟩ := List.pairwise_cons.mp hPw
      have h1 : angleset.outerScan xs = xs := ih hRest
      have h2 : angleset.innerScan x xs = (x, xs) :=
        innerScan_fixpoint x xs fun t ht => nocommon_combine_empty (hHead t ht)
      simp only [angleset.outerScan, h1, h2]

/-- The disjointness invariant of a stored arc list, stated through
`combine` as the claim does: any two distinct stored arcs combine (in
either order) to the empty arc. -/
def DisjointArcs (L : List anglerange) : Prop :=
  L.Pairwise (fun r t => (r.combine t).isempty = true ∧ (t.combine r).isempty = true)

instance (L : List anglerange) : Decidable (DisjointArcs L) := by
  unfold DisjointArcs
  infer_instance

theorem pairwise_nocommon_disjoint {L : List anglerange}
    (h : L.Pairwise NoCommon) : DisjointArcs L :=
  h.imp fun hab => ⟨nocommon_combine_empty hab, nocommon_combine_empty hab.symm⟩

theorem disjoint_pairwise_nocommon {L : List anglerange}
    (h : DisjointArcs L) : L.Pairwise NoCommon :=
  h.imp fun hab v hv => combine_empty_nocommon hab.1 v hv

/-- The merge pass establishes the disjointness invariant and keeps borders
normalized. -/
theorem combine_establishes_disjoint (s : angleset)
    (hIn : ∀ r ∈ s.storage, r.InRange) :
    DisjointArcs s.combine.storage ∧ (∀ r ∈ s.combine.storage, r.InRange) := by
  unfold angleset.combine
  by_cases hlen : 2 ≤ s.storage.length
  · simp only [hlen, if_true]
    obtain ⟨o1, o2⟩ := outerScan_spec s.storage hIn
    exact ⟨pairwise_nocommon_disjoint o2, o1⟩
  · simp only [hlen, if_false]
    refine ⟨?_, hIn⟩
    have hshort : s.storage.length ≤ 1 := by
      push_neg at hlen
      omega
    unfold DisjointArcs
    match hst : s.storage, hshort with
    | [], _ => exact List.Pairwise.nil
    | [r0], _ => simp

/-- The merge pass is idempotent on normalized storage. -/
theorem combine_idempotent (s : angleset) (hIn : ∀ r ∈ s.storage, r.InRange) :
    s.combine.combine = s.combine := by
  obtain ⟨hd, hIn2⟩ := combine_establishes_disjoint s hIn
  have hPw := disjoint_pairwise_nocommon hd
  have hfix : angleset.outerScan s.combine.storage = s.combine.storage :=
    outerScan_fixpoint _ hPw
  have hcomb : ∀ x : angleset, x.combine =
      ⟨if 2 ≤ x.storage.length then angleset.outerScan x.storage else x.storage, true⟩ :=
    fun x => rfl
  rw [hcomb s.combine, hfix, ite_self]
  rfl

/-- C1: after any of the three add operations the stored arcs are pairwise
non-overlapping and non-touching — the pairwise `combine` of any two
distinct stored arcs (in either order) is empty — and, equivalently,
running the merge pass a second time changes nothing.  The hypotheses state
the `angleclass` normalization of all borders involved and (for the
empty-arc no-op path of single-arc `add`) the invariant already holding. -/
theorem claim_C1_adds_maintain_disjointness (s t : angleset) (v : anglerange) (l u : ℚ)
    (hs : ∀ r ∈ s.storage, r.InRange) (ht : ∀ r ∈ t.storage, r.InRange)
    (hv : v.InRange) (hdisj : DisjointArcs s.storage) :
    DisjointArcs (s.add v).storage ∧
    DisjointArcs (s.addRaw l u).storage ∧
    DisjointArcs (s.addSet t).storage ∧
    s.combine.combine = s.combine := by
  refine ⟨?_, ?_, ?_, combine_idempotent s hs⟩
  · unfold angleset.add
    split_ifs with hemp
    · exact hdisj
    · refine (combine_establishes_disjoint _ ?_).1
      intro r hr
      rcases List.mem_append.mp hr with hr | hr
      · exact hs r hr
      · rw [List.mem_singleton] at hr
        subst hr
        simpa [anglerange.setsorttype, anglerange.InRange] using hv
  · unfold angleset.addRaw
    refine (combine_establishes_disjoint _ ?_).1
    intro r hr
    rcases List.mem_append.mp hr with hr | hr
    · exact hs r hr
    · rw [List.mem_singleton] at hr
      subst hr
      have q1 := shiftinrange_mem l
      have q2 := shiftinrange_mem u
      exact ⟨q1.1, q1.2, q2.1, q2.2⟩
  · unfold angleset.addSet
    refine (combine_establishes_disjoint _ ?_).1
    intro r hr
    rcases List.mem_append.mp hr with hr | hr
    · exact hs r hr
    · exact ht r hr

/-- Witness for C1 on a concrete one-arc set and fresh arcs. -/
theorem claim_C1_adds_maintain_disjointness_witness :
    DisjointArcs ((⟨[anglerange.mk2 0 10], true⟩ : angleset).add (anglerange.mk2 5 50)).storage ∧
    DisjointArcs ((⟨[anglerange.mk2 0 10], true⟩ : angleset).addRaw 100 200).storage ∧
    DisjointArcs ((⟨[anglerange.mk2 0 10], true⟩ : angleset).addSet
      (⟨[anglerange.mk2 300 350], true⟩ : angleset)).storage ∧
    (⟨[anglerange.mk2 0 10], true⟩ : angleset).combine.combine =
      (⟨[anglerange.mk2 0 10], true⟩ : angleset).combine :=
  claim_C1_adds_maintain_disjointness
    ⟨[anglerange.mk2 0 10], true⟩ ⟨[anglerange.mk2 300 350], true⟩
    (anglerange.mk2 5 50) 100 200
    (by
      intro r hr
      rw [List.mem_singleton] at hr
      subst hr
      constructor <;> norm_num [anglerange.mk2, turn])
    (by
      intro r hr
      rw [List.mem_singleton] at hr
      subst hr
      constructor <;> norm_num [anglerange.mk2, turn])
    (by constructor <;> norm_num [anglerange.mk2, turn])
    (by
      unfold DisjointArcs
      simp)
